import Mathlib

/-!
Verification of the card/deck/hand engine of the `c_cards` Blackjack
repository (`src/cards.c`, `src/blackjack.c`).  The C code is shallowly
embedded: the `struct card` enumerations become Lean inductives, the
`struct deck` (flat array plus `head`/`tail` cursors) becomes a structure
over `List Card` with two `Nat` indices, and the singly linked `struct hand`
becomes a `List Card` (a `NULL` hand pointer is the empty list).  `size_t`
arithmetic is modelled with `Nat` (all quantities stay far below 2^64, and
the one subtraction the code performs, `score -= 10` inside the ace
reduction, is shown never to underflow).  Allocation failure of `malloc`
is modelled by an explicit `allocOk : Bool` oracle, and the process-global
`rand()` source by a list of naturals consumed in order.
-/

/-- Ranks of a playing card, mirroring `enum rank` in `cards.h`
(`ACE = 1` up to `KING = 13`). -/
inductive Rank where
  | ace | two | three | four | five | six | seven | eight | nine | ten
  | jack | queen | king
deriving DecidableEq, Repr, Fintype

/-- Numeric value of a rank as declared in `cards.h` (`ACE = 1`, ...,
`KING = 13`); `blackjack_value` returns this number for `TWO`..`TEN`. -/
def rankNum : Rank → Nat
  | .ace => 1
  | .two => 2
  | .three => 3
  | .four => 4
  | .five => 5
  | .six => 6
  | .seven => 7
  | .eight => 8
  | .nine => 9
  | .ten => 10
  | .jack => 11
  | .queen => 12
  | .king => 13

/-- Suits of a playing card, mirroring `enum suit` in `cards.h`
(`SPADES = 0`, `DIAMONDS`, `CLUBS`, `HEARTS`). -/
inductive Suit where
  | spades | diamonds | clubs | hearts
deriving DecidableEq, Repr, Fintype

/-- Numeric value of a suit as declared in `cards.h`. -/
def suitNum : Suit → Nat
  | .spades => 0
  | .diamonds => 1
  | .clubs => 2
  | .hearts => 3

/-- A playing card, mirroring `struct card` in `cards.c`. -/
structure Card where
  rank : Rank
  suit : Suit
deriving DecidableEq, Repr

instance : Inhabited Card := ⟨⟨Rank.ace, Suit.spades⟩⟩

/-- Blackjack value of a card, mirroring `blackjack_value` in `cards.c`:
Ace is 11, court cards are 10, the remaining ranks score their enum value.
The C `default` branch (return -1 with `EINVAL`) is unreachable because the
`Rank` enumeration is closed. -/
def blackjack_value (card : Card) : Nat :=
  match card.rank with
  | .ace => 11
  | .jack | .queen | .king => 10
  | r => rankNum r

/-- Errors the engine reports through `errno`. -/
inductive Err where
  | EINVAL | ENODATA | ENOMEM
deriving DecidableEq, Repr

/-- Body of the scoring loop of `blackjack_score` for one card value `v`,
acting on the running `(score, aces)` state: add the value, count an ace
when the value is 11, and whenever the running total exceeds 21 with at
least one high ace, subtract 10 for EVERY high ace at once and reset the
ace count (the inner `for (int i = aces; i > 0; i--)` loop of the C code);
`none` is the early `return 0` (bust) taken when the total still exceeds
21 afterwards. -/
def aceStep (score aces v : Nat) : Option (Nat × Nat) :=
  let s1 := score + v
  let a1 := if v = 11 then aces + 1 else aces
  let s2 := if 21 < s1 ∧ 0 < a1 then s1 - 10 * a1 else s1
  let a2 := if 21 < s1 ∧ 0 < a1 then 0 else a1
  if 21 < s2 then none else some (s2, a2)

/-- The traversal loop of `blackjack_score`: fold `aceStep` over the hand,
threading the card counter; `none` propagates the early bust return. -/
def scoreLoop : List Card → Nat → Nat → Nat → Option (Nat × Nat)
  | [], score, cards, _ => some (score, cards)
  | c :: rest, score, cards, aces =>
    match aceStep score aces (blackjack_value c) with
    | none => none
    | some (s2, a2) => scoreLoop rest s2 (cards + 1) a2

/-- Scoring function, mirroring `blackjack_score` in `cards.c`: -1 with
`EINVAL` for a `NULL` (empty) hand, 0 for a bust, 22 for a two-card 21
(natural Blackjack), and the reduced total otherwise. -/
def blackjack_score (hand : List Card) : Int :=
  if hand.isEmpty then -1
  else
    match scoreLoop hand 0 0 0 with
    | none => 0
    | some (score, cards) => if cards = 2 ∧ score = 21 then 22 else (score : Int)

/-- A deck of cards, mirroring `struct deck` in `cards.c`: the allocated
card array and the `head` (next card to deal) and `tail` (final card)
indices.  The deck is empty exactly when `head > tail`. -/
structure Deck where
  cards : List Card
  head : Nat
  tail : Nat
deriving DecidableEq, Repr

/-- Suits in the iteration order of the generation loop in `deck_gen`
(`for (Suit suit = SPADES; suit <= HEARTS; suit++)`). -/
def suitOrder : List Suit := [.spades, .diamonds, .clubs, .hearts]

/-- Ranks in the iteration order of the generation loop in `deck_gen`
(`for (Rank rank = ACE; rank <= KING; rank++)`). -/
def rankOrder : List Rank :=
  [.ace, .two, .three, .four, .five, .six, .seven, .eight, .nine, .ten,
   .jack, .queen, .king]

/-- One 52-card pack in the order the inner two loops of `deck_gen` emit
it: suits Spades, Diamonds, Clubs, Hearts, and ranks Ace..King within
each suit. -/
def packCards : List Card :=
  suitOrder.flatMap (fun s => rankOrder.map (fun r => ⟨r, s⟩))

/-- Card array written by the triple loop of `deck_gen`: `k` consecutive
packs. -/
def genCards : Nat → List Card
  | 0 => []
  | k + 1 => genCards k ++ packCards

/-- Deck generation, mirroring `deck_gen` in `cards.c`: `EINVAL` when
`packs < 1`, `ENOMEM` when allocation fails (the `allocOk` oracle), and
otherwise a deck of `52 * packs` cards with `head = 0` and
`tail = 52 * packs - 1`. -/
def deck_gen (allocOk : Bool) (packs : Int) : Except Err Deck :=
  if packs < 1 then .error .EINVAL
  else if !allocOk then .error .ENOMEM
  else .ok ⟨genCards packs.toNat, 0, 52 * packs.toNat - 1⟩

/-- Number of undealt cards, mirroring `deck_size` in `cards.c` for a
non-`NULL` deck: 0 when `head > tail`, else `tail - head + 1`. -/
def deck_size (deck : Deck) : Nat :=
  if deck.head > deck.tail then 0 else deck.tail - deck.head + 1

/-- The three-assignment swap of the `deck_shuffle` loop body:
`tmp = cards[i]; cards[i] = cards[j]; cards[j] = tmp;`. -/
def listSwap (l : List Card) (i j : Nat) : List Card :=
  (l.set i (l.getD j default)).set j (l.getD i default)

/-- Loop of `deck_shuffle`: for `i` from `tail` down while `i > head`,
swap index `i` with `rand() % (i + 1)`.  The successive values returned by
`rand()` are supplied as the list `randoms` (0 once exhausted). -/
def shuffleLoop (head : Nat) : List Nat → List Card → Nat → List Card
  | _, cards, 0 => cards
  | randoms, cards, i + 1 =>
    if head < i + 1 then
      shuffleLoop head randoms.tail
        (listSwap cards (i + 1) (randoms.headD 0 % (i + 1 + 1))) i
    else cards

/-- Shuffle, mirroring `deck_shuffle` in `cards.c` for a non-`NULL` deck:
the card array is rewritten by `shuffleLoop` starting at index `tail`;
the cursors are untouched. -/
def deck_shuffle (randoms : List Nat) (deck : Deck) : Deck :=
  { deck with cards := shuffleLoop deck.head randoms deck.cards deck.tail }

/-- Dealing, mirroring `deal` in `cards.c` for a non-`NULL` deck: on an
exhausted deck fail with `ENODATA` touching nothing; otherwise read the
card at `head`, increment `head`, and then allocate the new hand node —
when that allocation fails (`allocOk = false`) return `ENOMEM` with the
head ALREADY incremented, exactly as the C code does; on success prepend
the card to the hand.  The result carries the error (if any) and the
post-call deck and hand. -/
def deal (allocOk : Bool) (deck : Deck) (hand : List Card) :
    Option Err × Deck × List Card :=
  if deck.head > deck.tail then (some .ENODATA, deck, hand)
  else
    let tmp_card := deck.cards.getD deck.head default
    let deck' := { deck with head := deck.head + 1 }
    if !allocOk then (some .ENOMEM, deck', hand)
    else (none, deck', tmp_card :: hand)

/-- Dealer branch of `blackjack_turn` in `cards.c` (allocation assumed to
succeed): compute the score of the current hand; while it is strictly
between 0 and 17, deal one card — surfacing a failed deal as the error
result with score -1 — and re-score.  The result carries the error (if
any), the final deck, the final hand, and the returned score. -/
def blackjack_turn_dealer (deck : Deck) (hand : List Card) :
    Option Err × Deck × List Card × Int :=
  let score := blackjack_score hand
  if 0 < score ∧ score < 17 then
    if deck.head > deck.tail then (some .ENODATA, deck, hand, -1)
    else
      blackjack_turn_dealer { deck with head := deck.head + 1 }
        (deck.cards.getD deck.head default :: hand)
  else (none, deck, hand, score)
termination_by deck_size deck
decreasing_by
  simp only [deck_size]
  split <;> omega

/-- The loop body of the dealer branch in `blackjack_turn` is exactly one
call to `deal` (with allocation succeeding): a successful deal recurses on
the updated deck and hand, a failed deal surfaces the error together with
the states `deal` left behind and the score -1 the C function returns. -/
theorem blackjack_turn_dealer_deal_shape (deck : Deck) (hand : List Card) :
    blackjack_turn_dealer deck hand =
      (let score := blackjack_score hand
       if 0 < score ∧ score < 17 then
         match deal true deck hand with
         | (none, deck', hand') => blackjack_turn_dealer deck' hand'
         | (some e, deck', hand') => (some e, deck', hand', -1)
       else (none, deck, hand, score)) := by
  rw [blackjack_turn_dealer]
  simp only [deal]
  split
  · split
    · rfl
    · rfl
  · rfl

/-- Round outcomes announced by `blackjack` in `cards.c`. -/
inductive Outcome where
  | playerWins | dealerWins | draw
deriving DecidableEq, Repr

/-- Outcome comparison of `blackjack` in `cards.c`
(`if (player_score > dealer_score) ... else if (dealer_score > player_score)
... else ...`). -/
def roundOutcome (player_score dealer_score : Int) : Outcome :=
  if player_score > dealer_score then .playerWins
  else if dealer_score > player_score then .dealerWins
  else .draw

/-- Composition of two scoring-loop steps, used to state that processing
two cards in either order gives the same running state. -/
def aceStep2 (s a v₁ v₂ : Nat) : Option (Nat × Nat) :=
  match aceStep s a v₁ with
  | none => none
  | some (s', a') => aceStep s' a' v₂

/-!
Invariant carried by the scoring loop between cards: the running total is
at most 21 (otherwise the loop has already returned bust) and the high
aces it still counts are worth at most the total (`11 * aces ≤ score`; in
particular at most one ace can be high between cards).  All the facts
below about one or two steps of the loop range over this finite state
space and are settled by `decide`.
-/

theorem blackjack_value_bounds (c : Card) :
    2 ≤ blackjack_value c ∧ blackjack_value c ≤ 11 := by
  obtain ⟨r, s⟩ := c
  cases r <;> simp [blackjack_value, rankNum]

set_option synthInstance.maxSize 4096

theorem aceStep_comm_dec :
    ∀ s < 22, ∀ a < 2, 11 * a ≤ s → ∀ v₁ < 12, 2 ≤ v₁ → ∀ v₂ < 12, 2 ≤ v₂ →
      aceStep2 s a v₁ v₂ = aceStep2 s a v₂ v₁ := by decide

theorem aceStep_inv_dec :
    ∀ s < 22, ∀ a < 2, 11 * a ≤ s → ∀ v < 12, 2 ≤ v →
      (aceStep s a v).all (fun p => decide (p.1 ≤ 21 ∧ 11 * p.2 ≤ p.1)) = true := by
  decide

theorem aceStep_range_dec :
    ∀ s < 22, 2 ≤ s → ∀ a < 2, 11 * a ≤ s → ∀ v < 12, 2 ≤ v →
      (aceStep s a v).all
        (fun p => decide (2 ≤ p.1 ∧ p.1 ≤ 21 ∧ 11 * p.2 ≤ p.1)) = true := by
  decide

theorem aceStep_first_dec :
    ∀ v < 12, 2 ≤ v →
      (aceStep 0 0 v).map
        (fun p => decide (2 ≤ p.1 ∧ p.1 ≤ 21 ∧ 11 * p.2 ≤ p.1)) = some true := by
  decide

theorem aceStep_all_or_none_dec :
    ∀ s < 22, ∀ a < 2, 11 * a ≤ s → ∀ v < 12, 2 ≤ v →
      (aceStep s a v).all (fun p => decide (p.2 = 0 ∨ p.1 = s + v)) = true := by
  decide

theorem aceStep_inv {s a v s' a' : Nat} (hs : s ≤ 21) (ha : 11 * a ≤ s)
    (hv₂ : 2 ≤ v) (hv : v ≤ 11) (h : aceStep s a v = some (s', a')) :
    s' ≤ 21 ∧ 11 * a' ≤ s' := by
  have hd := aceStep_inv_dec s (by omega) a (by omega) ha v (by omega) hv₂
  rw [h] at hd
  simpa using hd

theorem aceStep_range {s a v s' a' : Nat} (h₂ : 2 ≤ s) (hs : s ≤ 21)
    (ha : 11 * a ≤ s) (hv₂ : 2 ≤ v) (hv : v ≤ 11)
    (h : aceStep s a v = some (s', a')) :
    2 ≤ s' ∧ s' ≤ 21 ∧ 11 * a' ≤ s' := by
  have hd := aceStep_range_dec s (by omega) h₂ a (by omega) ha v (by omega) hv₂
  rw [h] at hd
  simpa using hd

theorem aceStep_first {v s' a' : Nat} (hv₂ : 2 ≤ v) (hv : v ≤ 11)
    (h : aceStep 0 0 v = some (s', a')) :
    2 ≤ s' ∧ s' ≤ 21 ∧ 11 * a' ≤ s' := by
  have hd := aceStep_first_dec v (by omega) hv₂
  rw [h] at hd
  simpa using hd

theorem aceStep_first_some (v : Nat) (hv₂ : 2 ≤ v) (hv : v ≤ 11) :
    aceStep 0 0 v ≠ none := by
  have hd := aceStep_first_dec v (by omega) hv₂
  intro h
  rw [h] at hd
  simp at hd

theorem aceStep_all_or_none {s a v s' a' : Nat} (hs : s ≤ 21) (ha : 11 * a ≤ s)
    (hv₂ : 2 ≤ v) (hv : v ≤ 11) (h : aceStep s a v = some (s', a')) :
    a' = 0 ∨ s' = s + v := by
  have hd := aceStep_all_or_none_dec s (by omega) a (by omega) ha v (by omega) hv₂
  rw [h] at hd
  simpa using hd

theorem scoreLoop_two (c d : Card) (l : List Card) (s cards a : Nat) :
    scoreLoop (c :: d :: l) s cards a =
      match aceStep2 s a (blackjack_value c) (blackjack_value d) with
      | none => none
      | some (s₂, a₂) => scoreLoop l s₂ (cards + 1 + 1) a₂ := by
  simp only [scoreLoop, aceStep2]
  cases aceStep s a (blackjack_value c) with
  | none => rfl
  | some p =>
    obtain ⟨s₁, a₁⟩ := p
    cases aceStep s₁ a₁ (blackjack_value d) <;> rfl

theorem scoreLoop_perm {l₁ l₂ : List Card} (hp : l₁.Perm l₂) :
    ∀ s cards a, s ≤ 21 → 11 * a ≤ s →
      scoreLoop l₁ s cards a = scoreLoop l₂ s cards a := by
  induction hp with
  | nil => intro s cards a _ _; rfl
  | cons c _ ih =>
    intro s cards a hs ha
    simp only [scoreLoop]
    cases h : aceStep s a (blackjack_value c) with
    | none => rfl
    | some p =>
      obtain ⟨s', a'⟩ := p
      obtain ⟨h₁, h₂⟩ := aceStep_inv hs ha (blackjack_value_bounds c).1
        (blackjack_value_bounds c).2 h
      exact ih s' (cards + 1) a' h₁ h₂
  | swap c₁ c₂ l =>
    intro s cards a hs ha
    rw [scoreLoop_two, scoreLoop_two]
    have hb₁ := blackjack_value_bounds c₁
    have hb₂ := blackjack_value_bounds c₂
    rw [aceStep_comm_dec s (by omega) a (by omega) ha
      (blackjack_value c₂) (by omega) hb₂.1 (blackjack_value c₁) (by omega) hb₁.1]
  | trans _ _ ih₁ ih₂ =>
    intro s cards a hs ha
    exact (ih₁ s cards a hs ha).trans (ih₂ s cards a hs ha)

theorem blackjack_score_perm {l₁ l₂ : List Card} (hp : l₁.Perm l₂) :
    blackjack_score l₁ = blackjack_score l₂ := by
  unfold blackjack_score
  have hemp : l₁.isEmpty = l₂.isEmpty := by
    rcases l₁ with _ | _ <;> rcases l₂ with _ | _ <;>
      first
        | rfl
        | exact absurd hp.length_eq (by simp)
  rw [hemp, scoreLoop_perm hp 0 0 0 (by omega) (by omega)]

theorem scoreLoop_range :
    ∀ (l : List Card) (s cards a : Nat), 2 ≤ s → s ≤ 21 → 11 * a ≤ s →
      ∀ s' c', scoreLoop l s cards a = some (s', c') → 2 ≤ s' ∧ s' ≤ 21 := by
  intro l
  induction l with
  | nil =>
    intro s cards a h₂ hs ha s' c' h
    simp only [scoreLoop, Option.some.injEq, Prod.mk.injEq] at h
    omega
  | cons c rest ih =>
    intro s cards a h₂ hs ha s' c' h
    simp only [scoreLoop] at h
    cases hst : aceStep s a (blackjack_value c) with
    | none => rw [hst] at h; exact absurd h (by simp)
    | some p =>
      obtain ⟨s₁, a₁⟩ := p
      rw [hst] at h
      obtain ⟨g₁, g₂, g₃⟩ := aceStep_range h₂ hs ha (blackjack_value_bounds c).1
        (blackjack_value_bounds c).2 hst
      exact ih s₁ (cards + 1) a₁ g₁ g₂ g₃ s' c' h

/-- The claim of C1, as stated, is false: the code scores the hand
{Ace, Ace, Nine} as Points(11), not Points(21), because when the second
Ace takes the running total to 22 the loop subtracts 10 for BOTH high
aces at once (down to 2), not one at a time. -/
theorem C1_counterexample :
    ¬ blackjack_score
        [⟨.ace, .spades⟩, ⟨.ace, .diamonds⟩, ⟨.nine, .spades⟩] = 21 := by decide

/-- C1 (amended): whenever adding a card takes the running total above 21
while a high Ace remains, the scoring loop of `blackjack_score` reduces
ALL currently-high Aces by 10 at once (after any step either no high ace
remains or no reduction happened); consequently a hand of
{Ace, Ace, Nine} scores Points(11) and a hand of {Ace, Ace, Ace, Eight}
scores Points(21), in every card order. -/
theorem C1_amended_reduce_all_at_once :
    (∀ s a v s' a' : Nat, s ≤ 21 → 11 * a ≤ s → 2 ≤ v → v ≤ 11 →
      aceStep s a v = some (s', a') → a' = 0 ∨ s' = s + v) ∧
    (∀ l : List Card,
      l.Perm [⟨.ace, .spades⟩, ⟨.ace, .diamonds⟩, ⟨.nine, .spades⟩] →
      blackjack_score l = 11) ∧
    (∀ l : List Card,
      l.Perm [⟨.ace, .spades⟩, ⟨.ace, .diamonds⟩, ⟨.ace, .clubs⟩, ⟨.eight, .spades⟩] →
      blackjack_score l = 21) := by
  refine ⟨?_, ?_, ?_⟩
  · intro s a v s' a' hs ha hv₂ hv h
    exact aceStep_all_or_none hs ha hv₂ hv h
  · intro l hp
    rw [blackjack_score_perm hp]
    decide
  · intro l hp
    rw [blackjack_score_perm hp]
    decide

/-- Witness for C1 (amended) at concrete inputs: the two hands, each in an
order different from the one listed in the claim, score 11 and 21. -/
theorem C1_amended_witness :
    blackjack_score [⟨.ace, .diamonds⟩, ⟨.ace, .spades⟩, ⟨.nine, .spades⟩] = 11 ∧
    blackjack_score
      [⟨.ace, .diamonds⟩, ⟨.ace, .spades⟩, ⟨.ace, .clubs⟩, ⟨.eight, .spades⟩] = 21 :=
  ⟨C1_amended_reduce_all_at_once.2.1 _ (List.Perm.swap _ _ _),
   C1_amended_reduce_all_at_once.2.2 _ (List.Perm.swap _ _ _)⟩

/-- C2: the score of a hand depends only on the multiset of its cards:
permuted hands receive the same result from `blackjack_score`. -/
theorem C2_score_order_invariant (l₁ l₂ : List Card) (hp : l₁.Perm l₂) :
    blackjack_score l₁ = blackjack_score l₂ :=
  blackjack_score_perm hp

/-- Witness for C2 at a concrete permuted pair of hands. -/
theorem C2_score_order_invariant_witness :
    blackjack_score [⟨.king, .spades⟩, ⟨.ace, .hearts⟩] =
      blackjack_score [⟨.ace, .hearts⟩, ⟨.king, .spades⟩] :=
  C2_score_order_invariant _ _ (List.Perm.swap _ _ _)

/-- C10: for a non-null hand `blackjack_score` returns 0 (Bust), 22
(Blackjack) or a value between 2 and 21; in particular never 1 and never
anything above 22. -/
theorem C10_score_range (hand : List Card) (h : hand ≠ []) :
    blackjack_score hand = 0 ∨ blackjack_score hand = 22 ∨
      (2 ≤ blackjack_score hand ∧ blackjack_score hand ≤ 21) := by
  cases hand with
  | nil => exact absurd rfl h
  | cons c rest =>
    unfold blackjack_score
    rw [if_neg (by simp)]
    simp only [scoreLoop]
    have hb := blackjack_value_bounds c
    cases h₁ : aceStep 0 0 (blackjack_value c) with
    | none => exact absurd h₁ (aceStep_first_some _ hb.1 hb.2)
    | some p =>
      obtain ⟨s₁, a₁⟩ := p
      obtain ⟨g₁, g₂, g₃⟩ := aceStep_first hb.1 hb.2 h₁
      cases h₂ : scoreLoop rest s₁ 1 a₁ with
      | none => simp [h₂]
      | some q =>
        obtain ⟨s', c'⟩ := q
        have hr := scoreLoop_range rest s₁ 1 a₁ g₁ g₂ g₃ s' c' h₂
        simp only [zero_add, h₂]
        by_cases hc : c' = 2 ∧ s' = 21
        · right; left; simp [hc]
        · right; right
          rw [if_neg hc]
          constructor <;> exact_mod_cast by omega

/-- Witness for C10 at a concrete non-empty hand. -/
theorem C10_score_range_witness :
    blackjack_score [⟨.king, .spades⟩, ⟨.queen, .hearts⟩] = 0 ∨
    blackjack_score [⟨.king, .spades⟩, ⟨.queen, .hearts⟩] = 22 ∨
      (2 ≤ blackjack_score [⟨.king, .spades⟩, ⟨.queen, .hearts⟩] ∧
        blackjack_score [⟨.king, .spades⟩, ⟨.queen, .hearts⟩] ≤ 21) :=
  C10_score_range _ (by simp)

/-- C3 fails on the code: `deck_shuffle` picks the swap partner as
`rand() % (i + 1)`, an index in `[0, i]` rather than `[head, i]`.  On the
deck `[AS, 2S, 3S]` with `head = 1` (the Ace of Spades already dealt) and
`rand()` returning 0, the single loop iteration (`i = 2`) swaps indices 2
and 0: the already-dealt card at index 0 is touched, and the multiset of
undealt cards `[head..tail]` changes from {2S, 3S} to {2S, AS}. -/
theorem C3_shuffle_range_bug_eval :
    deck_shuffle [0] ⟨[⟨.ace, .spades⟩, ⟨.two, .spades⟩, ⟨.three, .spades⟩], 1, 2⟩ =
      ⟨[⟨.three, .spades⟩, ⟨.two, .spades⟩, ⟨.ace, .spades⟩], 1, 2⟩ ∧
    (deck_shuffle [0]
        ⟨[⟨.ace, .spades⟩, ⟨.two, .spades⟩, ⟨.three, .spades⟩], 1, 2⟩).cards.getD 0 default ≠
      (⟨.ace, .spades⟩ : Card) ∧
    ((deck_shuffle [0]
        ⟨[⟨.ace, .spades⟩, ⟨.two, .spades⟩, ⟨.three, .spades⟩], 1, 2⟩).cards.drop 1).count
        (⟨.three, .spades⟩ : Card) ≠
      ([⟨.ace, .spades⟩, ⟨.two, .spades⟩, ⟨.three, .spades⟩].drop 1).count
        (⟨.three, .spades⟩ : Card) := by
  refine ⟨by decide, by decide, by decide⟩

/-- C4 fails on the code: `deal` increments `deck->head` BEFORE allocating
the new hand node, so when that allocation fails the call reports `ENOMEM`
but the deck head has already advanced (the card is lost); the hand is
unchanged.  Evaluated on a one-card deck and an empty hand with the
allocation failing. -/
theorem C4_deal_head_advance_on_alloc_failure :
    deal false ⟨[⟨.ace, .spades⟩], 0, 0⟩ [] =
      (some .ENOMEM, ⟨[⟨.ace, .spades⟩], 1, 0⟩, []) ∧
    (deal false ⟨[⟨.ace, .spades⟩], 0, 0⟩ []).2.1 ≠ ⟨[⟨.ace, .spades⟩], 0, 0⟩ := by
  refine ⟨by decide, by decide⟩

/-- Rank reached by the inner generation loop of `deck_gen` after `r`
increments from `ACE`. -/
def rankIdx : Nat → Rank
  | 0 => .ace
  | 1 => .two
  | 2 => .three
  | 3 => .four
  | 4 => .five
  | 5 => .six
  | 6 => .seven
  | 7 => .eight
  | 8 => .nine
  | 9 => .ten
  | 10 => .jack
  | 11 => .queen
  | _ => .king

/-- Suit reached by the middle generation loop of `deck_gen` after `s`
increments from `SPADES`. -/
def suitIdx : Nat → Suit
  | 0 => .spades
  | 1 => .diamonds
  | 2 => .clubs
  | _ => .hearts

theorem packCards_length : packCards.length = 52 := by decide

theorem genCards_length (k : Nat) : (genCards k).length = 52 * k := by
  induction k with
  | zero => rfl
  | succ k ih =>
    simp only [genCards, List.length_append, ih, packCards_length]
    ring

theorem packCards_count (r : Rank) (s : Suit) :
    packCards.count (⟨r, s⟩ : Card) = 1 := by
  cases r <;> cases s <;> decide

theorem genCards_count (k : Nat) (r : Rank) (s : Suit) :
    (genCards k).count (⟨r, s⟩ : Card) = k := by
  induction k with
  | zero => rfl
  | succ k ih =>
    simp only [genCards, List.count_append, ih, packCards_count]

theorem packCards_getD :
    ∀ s < 4, ∀ r < 13,
      packCards.getD (13 * s + r) default = ⟨rankIdx r, suitIdx s⟩ := by decide

theorem genCards_getD (k p s r : Nat) (hp : p < k) (hs : s < 4) (hr : r < 13) :
    (genCards k).getD (52 * p + 13 * s + r) default = ⟨rankIdx r, suitIdx s⟩ := by
  induction k with
  | zero => omega
  | succ k ih =>
    by_cases h : p < k
    · have hidx : 52 * p + 13 * s + r < (genCards k).length := by
        rw [genCards_length]; omega
      rw [genCards, List.getD_append _ _ _ _ hidx]
      exact ih h
    · have hpk : p = k := by omega
      subst hpk
      have hidx : 52 * p + 13 * s + r = (genCards p).length + (13 * s + r) := by
        rw [genCards_length]; omega
      rw [genCards, hidx, List.getD_append_right _ _ _ _ (by omega)]
      simpa using packCards_getD s hs r hr

/-- C5: for `packs = k ≥ 1` with allocation succeeding, `deck_gen` returns
a deck whose head is the first card, holding exactly `52 * k` cards in
which every (rank, suit) combination appears exactly `k` times, laid out
pack by pack with suits in the order Spades, Diamonds, Clubs, Hearts and
ranks Ace..King within each suit (the card at flat index
`52 * p + 13 * s + r` is the `r`-th rank of the `s`-th suit). -/
theorem C5_deck_gen_layout (k : Int) (d : Deck) (hk : 1 ≤ k)
    (h : deck_gen true k = .ok d) :
    d.head = 0 ∧
    d.cards.length = 52 * k.toNat ∧
    deck_size d = 52 * k.toNat ∧
    (∀ r s, d.cards.count ⟨r, s⟩ = k.toNat) ∧
    (∀ p s r, p < k.toNat → s < 4 → r < 13 →
      d.cards.getD (52 * p + 13 * s + r) default = ⟨rankIdx r, suitIdx s⟩) := by
  unfold deck_gen at h
  rw [if_neg (by omega)] at h
  simp only [Bool.not_true, Bool.false_eq_true, if_false, Except.ok.injEq] at h
  subst h
  have hk1 : 1 ≤ k.toNat := by omega
  refine ⟨rfl, genCards_length _, ?_, genCards_count _, genCards_getD _⟩
  simp only [deck_size]
  rw [if_neg (by omega)]
  omega

/-- Witness for C5 at `packs = 1`: the single-pack deck has 52 undealt
cards, one Ace of Spades, and the Ace of Diamonds at flat index 13. -/
theorem C5_deck_gen_layout_witness :
    deck_size ⟨genCards 1, 0, 51⟩ = 52 ∧
    (genCards 1).count (⟨.ace, .spades⟩ : Card) = 1 ∧
    (genCards 1).getD 13 default = (⟨.ace, .diamonds⟩ : Card) := by
  have h := C5_deck_gen_layout 1 ⟨genCards 1, 0, 51⟩ (by norm_num) rfl
  refine ⟨h.2.2.1, h.2.2.2.1 .ace .spades, ?_⟩
  have h13 := h.2.2.2.2 0 1 0 (by omega) (by omega) (by omega)
  simpa using h13

/-- C6: every successful `deal` decreases `deck_size` by exactly one, and
a `deal` against a deck with `deck_size = 0` fails with `ENODATA`, leaving
both the deck and the hand untouched. -/
theorem C6_deal_conservation (allocOk : Bool) (d : Deck) (hand : List Card) :
    ((deal allocOk d hand).1 = none →
      deck_size (deal allocOk d hand).2.1 + 1 = deck_size d) ∧
    (deck_size d = 0 → deal allocOk d hand = (some .ENODATA, d, hand)) := by
  constructor
  · intro h
    by_cases he : d.head > d.tail
    · simp [deal, he] at h
    · cases allocOk with
      | false => simp [deal, he] at h
      | true =>
        simp only [deal, if_neg he, Bool.not_true, Bool.false_eq_true, if_false,
          deck_size]
        split <;> omega
  · intro h
    have he : d.head > d.tail := by
      by_contra hc
      simp only [deck_size, if_neg hc] at h
      omega
    simp [deal, he]

/-- Witness for C6 on a one-card deck: the successful deal leaves zero
cards, and a second deal on the now-empty deck fails with `ENODATA`
leaving the deck as it is. -/
theorem C6_deal_conservation_witness :
    (deck_size (deal true ⟨[⟨.ace, .spades⟩], 0, 0⟩ []).2.1 + 1 =
      deck_size ⟨[⟨.ace, .spades⟩], 0, 0⟩) ∧
    deal true ⟨[⟨.ace, .spades⟩], 1, 0⟩ [] =
      (some .ENODATA, ⟨[⟨.ace, .spades⟩], 1, 0⟩, []) :=
  ⟨(C6_deal_conservation true ⟨[⟨.ace, .spades⟩], 0, 0⟩ []).1 (by decide),
   (C6_deal_conservation true ⟨[⟨.ace, .spades⟩], 1, 0⟩ []).2 (by decide)⟩

/-- C9: `deal` prepends, most-recent-first: on success the new hand is the
card that sat at the deck head consed onto the previous hand, whose
elements and order are untouched. -/
theorem C9_deal_prepends (allocOk : Bool) (d : Deck) (hand : List Card)
    (h : (deal allocOk d hand).1 = none) :
    (deal allocOk d hand).2.2 = d.cards.getD d.head default :: hand := by
  by_cases he : d.head > d.tail
  · simp [deal, he] at h
  · cases allocOk with
    | false => simp [deal, he] at h
    | true => simp [deal, he]

/-- Witness for C9: dealing from a two-card deck whose head is at index 1
prepends the card at index 1 to the existing one-card hand. -/
theorem C9_deal_prepends_witness :
    (deal true ⟨[⟨.ace, .spades⟩, ⟨.two, .hearts⟩], 1, 1⟩
        [⟨.king, .clubs⟩]).2.2 =
      [⟨.two, .hearts⟩, ⟨.king, .clubs⟩] :=
  C9_deal_prepends true ⟨[⟨.ace, .spades⟩, ⟨.two, .hearts⟩], 1, 1⟩
    [⟨.king, .clubs⟩] (by decide)

theorem btd_hand_le (d : Deck) (hand : List Card) :
    hand.length ≤ (blackjack_turn_dealer d hand).2.2.1.length := by
  induction d, hand using blackjack_turn_dealer.induct with
  | case1 d hand score hcond hempty =>
    rw [blackjack_turn_dealer, if_pos hcond, if_pos hempty]
  | case2 d hand score hcond hempty ih =>
    rw [blackjack_turn_dealer, if_pos hcond, if_neg hempty]
    simp only [List.length_cons] at ih
    omega
  | case3 d hand score hcond =>
    rw [blackjack_turn_dealer, if_neg hcond]

theorem btd_error_only_empty (d : Deck) (hand : List Card) :
    ∀ e, (blackjack_turn_dealer d hand).1 = some e →
      e = .ENODATA ∧ deck_size (blackjack_turn_dealer d hand).2.1 = 0 := by
  induction d, hand using blackjack_turn_dealer.induct with
  | case1 d hand score hcond hempty =>
    intro e he
    rw [blackjack_turn_dealer, if_pos hcond, if_pos hempty] at he ⊢
    simp only [Option.some.injEq] at he
    refine ⟨he.symm, ?_⟩
    simp [deck_size, hempty]
  | case2 d hand score hcond hempty ih =>
    intro e he
    rw [blackjack_turn_dealer, if_pos hcond, if_neg hempty] at he ⊢
    exact ih e he
  | case3 d hand score hcond =>
    intro e he
    rw [blackjack_turn_dealer, if_neg hcond] at he
    simp at he

theorem btd_no_silent_low (d : Deck) (hand : List Card) :
    (blackjack_turn_dealer d hand).1 = none →
      (blackjack_turn_dealer d hand).2.2.2 ≤ 0 ∨
        17 ≤ (blackjack_turn_dealer d hand).2.2.2 := by
  induction d, hand using blackjack_turn_dealer.induct with
  | case1 d hand score hcond hempty =>
    intro h
    rw [blackjack_turn_dealer, if_pos hcond, if_pos hempty] at h
    simp at h
  | case2 d hand score hcond hempty ih =>
    intro h
    rw [blackjack_turn_dealer, if_pos hcond, if_neg hempty] at h ⊢
    exact ih h
  | case3 d hand score hcond =>
    intro h
    rw [blackjack_turn_dealer, if_neg hcond]
    have hs : score = blackjack_score hand := rfl
    rw [hs] at hcond
    simp only
    omega

/-- C7: the dealer turn never draws when the starting score is Bust (0)
or at least 17 (deck, hand and returned score are the initial ones); it
draws at least one card when the starting score is between 1 and 16 and a
card is available; whenever it surfaces an error — as the recursion,
bounded by the deck size, always terminates — that error is `ENODATA`
(EmptyDeck) with the deck exhausted; entering the loop (score 1..16) on
an already-exhausted deck surfaces exactly `ENODATA` with deck, hand
untouched and the score -1 of the C error return; and the turn never ends
error-free with a score still between 1 and 16, so exhausting the deck
before reaching 17 always surfaces the error instead of silently
returning. -/
theorem C7_dealer_turn_policy (d : Deck) (hand : List Card) :
    ((blackjack_score hand = 0 ∨ 17 ≤ blackjack_score hand) →
      blackjack_turn_dealer d hand = (none, d, hand, blackjack_score hand)) ∧
    ((1 ≤ blackjack_score hand ∧ blackjack_score hand ≤ 16 ∧ 0 < deck_size d) →
      hand.length < (blackjack_turn_dealer d hand).2.2.1.length) ∧
    (∀ e, (blackjack_turn_dealer d hand).1 = some e →
      e = .ENODATA ∧ deck_size (blackjack_turn_dealer d hand).2.1 = 0) ∧
    ((1 ≤ blackjack_score hand ∧ blackjack_score hand ≤ 16 ∧ deck_size d = 0) →
      blackjack_turn_dealer d hand = (some .ENODATA, d, hand, -1)) ∧
    ((blackjack_turn_dealer d hand).1 = none →
      ¬(1 ≤ (blackjack_turn_dealer d hand).2.2.2 ∧
        (blackjack_turn_dealer d hand).2.2.2 ≤ 16)) := by
  refine ⟨?_, ?_, btd_error_only_empty d hand, ?_, ?_⟩
  · intro h
    rw [blackjack_turn_dealer, if_neg (by omega)]
  · intro h
    obtain ⟨h₁, h₂, h₃⟩ := h
    have hne : ¬ d.head > d.tail := by
      simp only [deck_size] at h₃
      by_contra hc
      rw [if_pos hc] at h₃
      omega
    rw [blackjack_turn_dealer, if_pos (by omega), if_neg hne]
    have hle := btd_hand_le ⟨d.cards, d.head + 1, d.tail⟩
      (d.cards.getD d.head default :: hand)
    simp only [List.length_cons] at hle
    omega
  · intro h
    obtain ⟨h₁, h₂, h₃⟩ := h
    have he : d.head > d.tail := by
      by_contra hc
      simp only [deck_size, if_neg hc] at h₃
      omega
    rw [blackjack_turn_dealer, if_pos (by omega), if_pos he]
  · intro h
    have := btd_no_silent_low d hand h
    omega

/-- Witness for C7: a dealer holding 20 against a one-card deck stands
pat, a dealer holding 12 against a one-card deck draws a card, and a
dealer holding 12 against an exhausted deck surfaces `ENODATA`. -/
theorem C7_dealer_turn_policy_witness :
    blackjack_turn_dealer ⟨[⟨.five, .spades⟩], 0, 0⟩
        [⟨.king, .spades⟩, ⟨.queen, .spades⟩] =
      (none, ⟨[⟨.five, .spades⟩], 0, 0⟩,
        [⟨.king, .spades⟩, ⟨.queen, .spades⟩], 20) ∧
    ([⟨.ten, .spades⟩, ⟨.two, .spades⟩] : List Card).length <
      (blackjack_turn_dealer ⟨[⟨.five, .hearts⟩], 0, 0⟩
        [⟨.ten, .spades⟩, ⟨.two, .spades⟩]).2.2.1.length ∧
    blackjack_turn_dealer ⟨[⟨.ace, .spades⟩], 1, 0⟩
        [⟨.ten, .spades⟩, ⟨.two, .spades⟩] =
      (some .ENODATA, ⟨[⟨.ace, .spades⟩], 1, 0⟩,
        [⟨.ten, .spades⟩, ⟨.two, .spades⟩], -1) := by
  refine ⟨?_, ?_, ?_⟩
  · have h := (C7_dealer_turn_policy ⟨[⟨.five, .spades⟩], 0, 0⟩
      [⟨.king, .spades⟩, ⟨.queen, .spades⟩]).1 (Or.inr (by decide))
    rw [h]
    decide
  · exact (C7_dealer_turn_policy ⟨[⟨.five, .hearts⟩], 0, 0⟩
      [⟨.ten, .spades⟩, ⟨.two, .spades⟩]).2.1 ⟨by decide, by decide, by decide⟩
  · exact (C7_dealer_turn_policy ⟨[⟨.ace, .spades⟩], 1, 0⟩
      [⟨.ten, .spades⟩, ⟨.two, .spades⟩]).2.2.2.1 ⟨by decide, by decide, by decide⟩

/-- C8: on scores encoded as sentinels (0 Bust, 1..21 Points,
22 Blackjack) the numeric comparison of the orchestrator realizes the
tie-break rule: Blackjack beats every Points value including 21, Bust
loses to any nonzero score, and equal scores — Bust versus Bust
included — draw. -/
theorem C8_outcome_tiebreak (p q : Int) (hp₀ : 0 ≤ p) (hp : p ≤ 22)
    (hq₀ : 0 ≤ q) (hq : q ≤ 22) :
    (p = 22 ∧ q ≤ 21 → roundOutcome p q = .playerWins) ∧
    (q = 22 ∧ p ≤ 21 → roundOutcome p q = .dealerWins) ∧
    (p = 0 ∧ 0 < q → roundOutcome p q = .dealerWins) ∧
    (q = 0 ∧ 0 < p → roundOutcome p q = .playerWins) ∧
    (p = q → roundOutcome p q = .draw) := by
  unfold roundOutcome
  refine ⟨fun h => ?_, fun h => ?_, fun h => ?_, fun h => ?_, fun h => ?_⟩ <;>
    split_ifs <;> first | rfl | (exfalso; omega)

/-- Witness for C8 at the three boundary pairs: Blackjack over 21, Bust
against Points, Bust against Bust. -/
theorem C8_outcome_tiebreak_witness :
    roundOutcome 22 21 = .playerWins ∧ roundOutcome 0 13 = .dealerWins ∧
    roundOutcome 0 0 = .draw :=
  ⟨(C8_outcome_tiebreak 22 21 (by norm_num) (by norm_num) (by norm_num)
      (by norm_num)).1 ⟨rfl, by norm_num⟩,
   (C8_outcome_tiebreak 0 13 (by norm_num) (by norm_num) (by norm_num)
      (by norm_num)).2.2.1 ⟨rfl, by norm_num⟩,
   (C8_outcome_tiebreak 0 0 (by norm_num) (by norm_num) (by norm_num)
      (by norm_num)).2.2.2.2 rfl⟩
